import Mathlib

/-!
Verification of the PiHoleLongTermStats ingestion-and-aggregation pipeline
(`src/piholelongtermstats/db.py` and `src/piholelongtermstats/process.py`),
as a shallow embedding in Lean 4.

Modelling conventions:
* pandas DataFrames are lists of `Row` records; column assignment becomes a
  field update on every row.
* machine timestamps are `Int` UTC epoch seconds; an hour bucket is the
  floor-division of the timestamp by 3600 (`pd.Grouper(freq="h")` bins a
  tz-aware timestamp column to hour boundaries; for whole-hour zone offsets
  this is the same floor).
* `df.groupby([pd.Grouper(key="timestamp", freq="h"), k1, k2]).size()` is
  embedded with pandas' documented behaviour for a frequency `Grouper` mixed
  with further keys: the result holds one entry for every combination of
  hour bin between the minimum and maximum observed bin and the distinct
  values of the other keys, with count 0 for empty combinations.
* Python dictionaries are association lists with last-write-wins insertion.
* Python exceptions raised by SQL queries are `Except` values; a loader's
  `finally: conn.close()` is an explicit `Bool` "connection closed" flag in
  the result.
* the Python `re` module is an abstract `RegexEngine` parameter: a partial
  compilation function together with a match predicate.
* `float` quantities that the code only ever multiplies and divides are
  embedded as `Rat`; Python's `int()` on a non-negative quotient is `Int.floor`.
-/

/-! ### Generic helpers -/

/-- Does the pattern list appear at the head of the second list?
Building block for Python's substring operator `in`. -/
def listStartsWith : List Char → List Char → Bool
  | [], _ => true
  | _ :: _, [] => false
  | p :: ps, c :: cs => p == c && listStartsWith ps cs

/-- Does the pattern list appear contiguously anywhere in the second list? -/
def listContainsSub (pat : List Char) : List Char → Bool
  | [] => listStartsWith pat []
  | c :: cs => listStartsWith pat (c :: cs) || listContainsSub pat cs

/-- Python's `pat in s` substring test on strings. -/
def strContains (s pat : String) : Bool :=
  listContainsSub pat.toList s.toList

/-- Python `str.lower` (ASCII-adequate embedding). -/
def strLower (s : String) : String := s.map Char.toLower

/-- Python dict assignment `m[k] = v`: replace the binding if the key is
present, otherwise append it. -/
def dictInsert (k v : String) : List (String × String) → List (String × String)
  | [] => [(k, v)]
  | (k0, v0) :: rest =>
    if k0 = k then (k, v) :: rest else (k0, v0) :: dictInsert k v rest

/-- Python `k in m` on a dict embedded as an association list. -/
def dictHasKey (k : String) (m : List (String × String)) : Bool :=
  m.any (fun p => p.1 == k)

/-- The list of integers from `lo` to `hi` inclusive. -/
def intRange (lo hi : ℤ) : List ℤ :=
  (List.range (hi + 1 - lo).toNat).map (fun i : ℕ => lo + (i : ℤ))

/-! ### Data model: one DataFrame row

Mirrors the columns the pipeline reads and writes.  The raw Event Record
columns come first (`type` is spelled `qtype`, `type` being reserved);
the Enriched Record columns follow.  pandas adds derived columns by
assignment, which the embedding renders as updating the corresponding field,
so a not-yet-enriched row simply carries unconstrained values there. -/

structure Row where
  id : ℤ
  timestamp : ℤ
  qtype : ℕ
  status : ℤ
  domain : String
  client : String
  reply_time : Option ℚ
  forward : Option ℕ
  client_ip : String
  dns_server : Option String
  dns_category : String
  status_type : String
  query_type : String
  ip_version : String
  date : ℤ
  hour : ℕ
  day_period : String
  day_name : String
deriving DecidableEq, Repr

/-! ### db.py: connection and chunk planner -/

/-- `connect_to_sql` (db.py): raises `FileNotFoundError` when the path is not
an existing file, otherwise yields a connection (embedded as `Unit`). -/
def connect_to_sql (fileExists : Bool) : Except String Unit :=
  if fileExists then Except.ok () else Except.error "FileNotFoundError"

/-- The chunk-size computation of `probe_sample_df` (db.py):
`safe_memory = available_memory * 0.5; chunksize = int(safe_memory / memory_per_row)`.
Both operands are non-negative, so Python's truncating `int()` is the floor. -/
def probe_chunksize (available_memory memory_per_row : ℚ) : ℤ :=
  ⌊available_memory * (1 / 2) / memory_per_row⌋

/-! ### db.py: mapping loaders

Each loader takes the outcome of its SQL query (or queries) as an `Except`
value.  The returned `Bool` is true when the connection was closed, which the
`finally` block achieves on every path.  `load_hostname_mapping` and
`load_forwarder_mapping` reset their mapping to `{}` inside `except`;
`load_client_mac_mapping` does not reset and keeps whatever was built before
the failing statement. -/

/-- `load_hostname_mapping` (db.py): builds an IP → hostname dict with
last-write-wins; on any query error returns the empty dict. -/
def load_hostname_mapping (q : Except String (List (String × String))) :
    List (String × String) × Bool :=
  match q with
  | Except.ok rows => (rows.foldl (fun m p => dictInsert p.1 p.2 m) [], true)
  | Except.error _ => ([], true)

/-- `load_forwarder_mapping` (db.py): forwarder id → DNS server address;
on any query error returns the empty dict. -/
def load_forwarder_mapping (q : Except String (List (String × String))) :
    List (String × String) × Bool :=
  match q with
  | Except.ok rows => (rows.foldl (fun m p => dictInsert p.1 p.2 m) [], true)
  | Except.error _ => ([], true)

/-- `load_client_mac_mapping` (db.py): runs two queries in order.  The first
builds IP → lowercased MAC (last write wins); the second builds
lowercased MAC → name keeping the first name seen per MAC.  An error in
either query jumps to `except`, which only logs, so the mappings accumulated
before the error are returned as-is. -/
def load_client_mac_mapping
    (qIps qNames : Except String (List (String × String))) :
    List (String × String) × List (String × String) × Bool :=
  match qIps with
  | Except.error _ => ([], [], true)
  | Except.ok ipRows =>
    let ip_to_mac := ipRows.foldl (fun m p => dictInsert p.1 (strLower p.2) m) []
    match qNames with
    | Except.error _ => (ip_to_mac, [], true)
    | Except.ok nameRows =>
      let mac_to_name := nameRows.foldl
        (fun m p =>
          let k := strLower p.1
          if dictHasKey k m then m else dictInsert k p.2 m) []
      (ip_to_mac, mac_to_name, true)

/-- A mapping loader together with its `connect_to_sql` prelude: the
connection is opened before the `try` block, so a missing database file
propagates as an error and the loader body never runs. -/
def load_hostname_mapping_full (fileExists : Bool)
    (q : Except String (List (String × String))) :
    Except String (List (String × String) × Bool) :=
  (connect_to_sql fileExists).bind (fun _ => Except.ok (load_hostname_mapping q))

/-- `load_forwarder_mapping` with its `connect_to_sql` prelude. -/
def load_forwarder_mapping_full (fileExists : Bool)
    (q : Except String (List (String × String))) :
    Except String (List (String × String) × Bool) :=
  (connect_to_sql fileExists).bind (fun _ => Except.ok (load_forwarder_mapping q))

/-- `load_client_mac_mapping` with its `connect_to_sql` prelude. -/
def load_client_mac_mapping_full (fileExists : Bool)
    (qIps qNames : Except String (List (String × String))) :
    Except String (List (String × String) × List (String × String) × Bool) :=
  (connect_to_sql fileExists).bind
    (fun _ => Except.ok (load_client_mac_mapping qIps qNames))

/-! ### db.py: DNS server categorization -/

/-- `categorize_dns_server` (db.py).  A missing forwarder address (pandas
`NaN`/`None`) is `none`; the substring checks run in source order. -/
def categorize_dns_server : Option String → String
  | none => "Cached/Blocked"
  | some forward =>
    if strContains forward "127.0.0.1#5335" then "Unbound IPv4"
    else if strContains forward "::1#5335" then "Unbound IPv6"
    else if strContains forward "192.168.50.1" ||
        strContains forward "fe80::ce28:aaff:fe29:f650" then "Router"
    else forward

/-! ### db.py: window resolver (explicit date-range branch, UTC zone)

`get_timestamp_range` with both dates given parses them as calendar dates,
advances the end date by one day (`timedelta(days=1)`), attaches the zone and
converts to UTC epoch seconds.  The embedding covers the `UTC` zone, where
midnight of a date sits at `86400 * (days since 1970-01-01)`.  The calendar
arithmetic below is the proleptic Gregorian ordinal used by `datetime`. -/

structure CalDate where
  y : ℕ
  m : ℕ
  d : ℕ
deriving DecidableEq, Repr

def isLeapYear (y : ℕ) : Bool :=
  y % 4 == 0 && (y % 100 != 0 || y % 400 == 0)

def daysInMonth (y m : ℕ) : ℕ :=
  match m with
  | 1 => 31
  | 2 => if isLeapYear y then 29 else 28
  | 3 => 31
  | 4 => 30
  | 5 => 31
  | 6 => 30
  | 7 => 31
  | 8 => 31
  | 9 => 30
  | 10 => 31
  | 11 => 30
  | 12 => 31
  | _ => 0

def cumDaysBeforeMonth (m : ℕ) : ℕ :=
  match m with
  | 1 => 0
  | 2 => 31
  | 3 => 59
  | 4 => 90
  | 5 => 120
  | 6 => 151
  | 7 => 181
  | 8 => 212
  | 9 => 243
  | 10 => 273
  | 11 => 304
  | 12 => 334
  | _ => 365

def daysBeforeMonth (y m : ℕ) : ℕ :=
  cumDaysBeforeMonth m + (if 2 < m && isLeapYear y then 1 else 0)

def leapsBeforeYear (y : ℕ) : ℕ :=
  (y - 1) / 4 - (y - 1) / 100 + (y - 1) / 400

def daysBeforeYear (y : ℕ) : ℕ :=
  365 * (y - 1) + leapsBeforeYear y

/-- `datetime.date.toordinal`: day number in the proleptic Gregorian
calendar, with 0001-01-01 being day 1. -/
def toOrdinal (dt : CalDate) : ℕ :=
  daysBeforeYear dt.y + daysBeforeMonth dt.y dt.m + dt.d

/-- UTC epoch seconds of midnight of a calendar date. -/
def epochSecs (dt : CalDate) : ℤ :=
  ((toOrdinal dt : ℤ) - (toOrdinal ⟨1970, 1, 1⟩ : ℤ)) * 86400

/-- `date + timedelta(days=1)` on the calendar representation. -/
def addOneDay (dt : CalDate) : CalDate :=
  if dt.d < daysInMonth dt.y dt.m then ⟨dt.y, dt.m, dt.d + 1⟩
  else if dt.m < 12 then ⟨dt.y, dt.m + 1, 1⟩
  else ⟨dt.y + 1, 1, 1⟩

/-- A calendar date `strptime` can produce (what the source branch consumes). -/
abbrev ValidDate (dt : CalDate) : Prop :=
  1 ≤ dt.y ∧ 1 ≤ dt.m ∧ dt.m ≤ 12 ∧ 1 ≤ dt.d ∧ dt.d ≤ daysInMonth dt.y dt.m

/-- The explicit date-range branch of `get_timestamp_range` (db.py) for the
UTC zone: start at midnight of `start_date`, end at midnight of
`end_date + timedelta(days=1)`, both as UTC epoch seconds. -/
def get_timestamp_range_explicit_utc (start_date end_date : CalDate) : ℤ × ℤ :=
  (epochSecs start_date, epochSecs (addOneDay end_date))

/-! ### process.py: status classification -/

def allowed_statuses : List ℤ := [2, 3, 12, 13, 14, 17]

def blocked_statuses : List ℤ := [1, 4, 5, 6, 7, 8, 9, 10, 11, 15, 16, 18]

/-- The classifying lambda of `preprocess_df` (process.py):
`"Allowed" if x in allowed_statuses else ("Blocked" if x in blocked_statuses else "Other")`. -/
def statusTypeOf (x : ℤ) : String :=
  if x ∈ allowed_statuses then "Allowed"
  else if x ∈ blocked_statuses then "Blocked"
  else "Other"

/-! ### process.py: domain exclusion

The Python `re` module is external; it is embedded as an abstract engine:
`compile` either fails (invalid pattern) or yields a compiled value that
`search` applies to a string.  `_is_valid_regex` is `compile` succeeding. -/

structure RegexEngine (R : Type) where
  compile : String → Option R
  search : R → String → Bool

/-- `_is_valid_regex` (process.py). -/
def is_valid_regex {R : Type} (E : RegexEngine R) (pattern : String) : Bool :=
  (E.compile pattern).isSome

/-- `regex_ignore_domains` (process.py): with a valid pattern, keep the rows
whose domain does not match (`df[~mask]`); with an invalid pattern, log and
return the DataFrame unchanged. -/
def regex_ignore_domains {R : Type} (E : RegexEngine R)
    (df : List Row) (pattern : String) : List Row :=
  match E.compile pattern with
  | some r => df.filter (fun row => !(E.search r row.domain))
  | none => df

/-! ### process.py: hostname resolution and preprocessing -/

/-- The per-row effect of `resolve_hostnames` (process.py).  The dict is an
abstract lookup `String → Option String`.  `client_ip` is always set to the
current `client` first; the display value then depends on the mode. -/
def resolveRow (hmap : String → Option String) (display_mode : String)
    (r : Row) : Row :=
  let r1 := { r with client_ip := r.client }
  if display_mode == "ip" then r1
  else if display_mode == "both" then
    { r1 with client :=
        match hmap r1.client with
        | some h => h ++ " (" ++ r1.client ++ ")"
        | none => r1.client }
  else
    { r1 with client := (hmap r1.client).getD r1.client }

/-- `resolve_hostnames` (process.py), vectorized over the rows. -/
def resolve_hostnames (hmap : String → Option String) (display_mode : String)
    (df : List Row) : List Row :=
  df.map (resolveRow hmap display_mode)

/-- `pandas.Series.dt.day_name` on a day count since 1970-01-01
(a Thursday). -/
def dayNameOf (days : ℤ) : String :=
  match ((days + 3).emod 7).toNat with
  | 0 => "Monday"
  | 1 => "Tuesday"
  | 2 => "Wednesday"
  | 3 => "Thursday"
  | 4 => "Friday"
  | 5 => "Saturday"
  | _ => "Sunday"

/-- The per-row effect of `preprocess_df` (process.py).  The configured zone
is a fixed offset `off` in seconds; the timestamp column stays the same
instant (pandas re-expresses it, the instant does not move), and `date`,
`hour`, `day_period`, `status_type`, `day_name` are derived from the
zone-local reading.  `pd.to_numeric` on the already-numeric `reply_time` is
the identity. -/
def preprocessRow (off : ℤ) (r : Row) : Row :=
  let localSecs := r.timestamp + off
  let day := localSecs.fdiv 86400
  let hr := ((localSecs.fdiv 3600).emod 24).toNat
  { r with
    date := day
    hour := hr
    day_period := if 6 ≤ hr && hr < 24 then "Day" else "Night"
    status_type := statusTypeOf r.status
    day_name := dayNameOf day }

/-- Stable insertion into a list sorted by `timestamp`. -/
def insertTs (r : Row) : List Row → List Row
  | [] => [r]
  | x :: xs =>
    if r.timestamp ≤ x.timestamp then r :: x :: xs else x :: insertTs r xs

/-- `df.sort_values("timestamp")` as a stable insertion sort. -/
def sortTs : List Row → List Row
  | [] => []
  | x :: xs => insertTs x (sortTs xs)

/-- `preprocess_df` (process.py): sort by timestamp, then derive the
calendar and classification columns row-wise. -/
def preprocess_df (off : ℤ) (df : List Row) : List Row :=
  (sortTs df).map (preprocessRow off)

/-- The enrichment transformation named by the spec: hostname resolution
followed by preprocessing. -/
def enrich (hmap : String → Option String) (display_mode : String) (off : ℤ)
    (df : List Row) : List Row :=
  preprocess_df off (resolve_hostnames hmap display_mode df)

/-! ### process.py: hourly aggregator -/

/-- The hour bucket of a row: `pd.Grouper(key="timestamp", freq="h")`. -/
def hourBucket (r : Row) : ℤ := r.timestamp.fdiv 3600

/-- Minimum observed hour bucket of a non-empty record set. -/
def bucketMin (r0 : Row) (rest : List Row) : ℤ :=
  rest.foldl (fun a r => min a (hourBucket r)) (hourBucket r0)

/-- Maximum observed hour bucket of a non-empty record set. -/
def bucketMax (r0 : Row) (rest : List Row) : ℤ :=
  rest.foldl (fun a r => max a (hourBucket r)) (hourBucket r0)

/-- One cell of the aggregate: the number of records in hour bucket `b` with
`f`-value `v` and client `c`. -/
def aggCell (f : Row → String) (df : List Row) (b : ℤ) (v c : String) : ℕ :=
  (df.filter (fun r =>
    decide (hourBucket r = b ∧ f r = v ∧ r.client = c))).length

/-- The slice of the aggregate for one hour bucket: one entry per distinct
`f`-value and distinct client of the input. -/
def aggBlock (f : Row → String) (df : List Row) (b : ℤ) :
    List (ℤ × String × String × ℕ) :=
  ((df.map f).dedup).flatMap (fun v =>
    ((df.map Row.client).dedup).map (fun c => (b, v, c, aggCell f df b v c)))

/-- `df.groupby([pd.Grouper(key="timestamp", freq="h"), f, "client"]).size()`
(process.py, `prepare_hourly_aggregated_data`): one output row per
combination of hour bucket in the observed span, distinct `f`-value and
distinct client, carrying the number of matching records (0 when none — a
frequency `Grouper` mixed with further keys materializes every combination). -/
def aggBy (f : Row → String) (df : List Row) : List (ℤ × String × String × ℕ) :=
  match df with
  | [] => []
  | r0 :: rest =>
    (intRange (bucketMin r0 rest) (bucketMax r0 rest)).flatMap
      (aggBlock f (r0 :: rest))

/-- The `hourly_agg` table of `prepare_hourly_aggregated_data`:
hour bucket × `status_type` × client → count. -/
def hourly_agg (df : List Row) : List (ℤ × String × String × ℕ) :=
  aggBy Row.status_type df

/-- The `unbound_trend_agg` table: hour bucket × `dns_category` × client. -/
def unbound_trend_agg (df : List Row) : List (ℤ × String × String × ℕ) :=
  aggBy Row.dns_category df

/-- The `query_type_trend_agg` table: hour bucket × `query_type` × client. -/
def query_type_trend_agg (df : List Row) : List (ℤ × String × String × ℕ) :=
  aggBy Row.query_type df

/-! ### Concrete material used by witnesses and counterexamples -/

/-- A concrete regex engine: `"("` is the one invalid pattern, and a compiled
pattern matches strings containing `"ads."`. -/
def sampleEngine : RegexEngine Unit where
  compile := fun p => if p = "(" then none else some ()
  search := fun _ s => strContains s "ads."

/-- A concrete row with the given timestamp, status code, client and domain;
the enriched columns carry the values enrichment would give them. -/
def sampleRow (ts st : ℤ) (cl dom : String) : Row where
  id := 0
  timestamp := ts
  qtype := 1
  status := st
  domain := dom
  client := cl
  reply_time := none
  forward := none
  client_ip := cl
  dns_server := none
  dns_category := "Cached/Blocked"
  status_type := statusTypeOf st
  query_type := "A (IPv4)"
  ip_version := "IPv4"
  date := 0
  hour := 0
  day_period := "Night"
  day_name := "Thursday"

/-- A concrete hostname mapping resolving a single private IP. -/
def sampleHostMap : String → Option String :=
  fun s => if s = "192.168.1.2" then some "laptop" else none

/-! ## Claim theorems -/

/-- C2: the claim states the chunk size `floor((available_memory * 0.5) /
memory_per_row)` is at least 1 for every available-memory value.  The code
has no lower clamp: with 100 bytes available and 1000 bytes per row the
computed chunk size is 0, contradicting the spec's `chunk_size ≥ 1`
guarantee. -/
theorem c2_chunk_planner_zero : probe_chunksize 100 1000 = 0 := by
  unfold probe_chunksize
  norm_num

/-- C3: status classification is total and exhaustive: members of the fixed
allowed set map to `"Allowed"`, members of the fixed blocked set map to
`"Blocked"`, the two sets are disjoint, every other integer maps to
`"Other"`, and every integer gets exactly one of the three labels. -/
theorem c3_status_classification :
    (∀ x : ℤ, x ∈ allowed_statuses → statusTypeOf x = "Allowed") ∧
    (∀ x : ℤ, x ∈ blocked_statuses → statusTypeOf x = "Blocked") ∧
    (∀ x : ℤ, x ∉ allowed_statuses → x ∉ blocked_statuses →
      statusTypeOf x = "Other") ∧
    (∀ x : ℤ, ¬(x ∈ allowed_statuses ∧ x ∈ blocked_statuses)) ∧
    (∀ x : ℤ, statusTypeOf x = "Allowed" ∨ statusTypeOf x = "Blocked" ∨
      statusTypeOf x = "Other") := by
  refine ⟨?_, ?_, ?_, ?_, ?_⟩
  · intro x hx; fin_cases hx <;> rfl
  · intro x hx; fin_cases hx <;> rfl
  · intro x h1 h2; simp [statusTypeOf, h1, h2]
  · intro x h
    obtain ⟨h1, h2⟩ := h
    fin_cases h1 <;> revert h2 <;> decide
  · intro x
    by_cases h1 : x ∈ allowed_statuses <;> by_cases h2 : x ∈ blocked_statuses <;>
      simp [statusTypeOf, h1, h2]

/-- Witness for C3 at concrete status codes 2, 4 and 99. -/
theorem c3_status_classification_witness :
    statusTypeOf 2 = "Allowed" ∧ statusTypeOf 4 = "Blocked" ∧
      statusTypeOf 99 = "Other" :=
  ⟨c3_status_classification.1 2 (by decide),
   c3_status_classification.2.1 4 (by decide),
   c3_status_classification.2.2.1 99 (by decide) (by decide)⟩

/-- C6: DNS-server categorization checks the Unbound-IPv4 marker first, then
the Unbound-IPv6 marker, then the router addresses; an absent forwarder
address gives `"Cached/Blocked"`; an address containing the Unbound-IPv4
marker gives `"Unbound IPv4"` whatever else it contains; a non-empty address
matching no marker is returned literally. -/
theorem c6_dns_category_order :
    categorize_dns_server none = "Cached/Blocked" ∧
    (∀ s, strContains s "127.0.0.1#5335" = true →
      categorize_dns_server (some s) = "Unbound IPv4") ∧
    (∀ s, strContains s "127.0.0.1#5335" = false →
      strContains s "::1#5335" = true →
      categorize_dns_server (some s) = "Unbound IPv6") ∧
    (∀ s, strContains s "127.0.0.1#5335" = false →
      strContains s "::1#5335" = false →
      (strContains s "192.168.50.1" = true ∨
        strContains s "fe80::ce28:aaff:fe29:f650" = true) →
      categorize_dns_server (some s) = "Router") ∧
    (∀ s, s ≠ "" → strContains s "127.0.0.1#5335" = false →
      strContains s "::1#5335" = false →
      strContains s "192.168.50.1" = false →
      strContains s "fe80::ce28:aaff:fe29:f650" = false →
      categorize_dns_server (some s) = s) := by
  refine ⟨rfl, ?_, ?_, ?_, ?_⟩
  · intro s h1; simp [categorize_dns_server, h1]
  · intro s h1 h2; simp [categorize_dns_server, h1, h2]
  · intro s h1 h2 h3
    rcases h3 with h3 | h3 <;> simp [categorize_dns_server, h1, h2, h3]
  · intro s _ h1 h2 h3 h4; simp [categorize_dns_server, h1, h2, h3, h4]

/-- Witness for C6: an address carrying both the Unbound-IPv4 marker and a
router address resolves to `"Unbound IPv4"`. -/
theorem c6_dns_category_order_witness :
    strContains "127.0.0.1#5335 via 192.168.50.1" "127.0.0.1#5335" = true ∧
    categorize_dns_server (some "127.0.0.1#5335 via 192.168.50.1") =
      "Unbound IPv4" :=
  ⟨by decide, c6_dns_category_order.2.1 _ (by decide)⟩

/-- C7: domain exclusion with an invalid pattern (compilation fails) returns
the record set unchanged and never raises; with a valid pattern it drops
exactly the records whose domain matches. -/
theorem c7_regex_exclusion {R : Type} (E : RegexEngine R) (df : List Row)
    (p : String) :
    (E.compile p = none → regex_ignore_domains E df p = df) ∧
    (∀ r, E.compile p = some r →
      regex_ignore_domains E df p =
        df.filter (fun row => !(E.search r row.domain)) ∧
      ∀ row : Row, row ∈ regex_ignore_domains E df p ↔
        row ∈ df ∧ E.search r row.domain = false) := by
  constructor
  · intro h; simp [regex_ignore_domains, h]
  · intro r h
    refine ⟨by simp [regex_ignore_domains, h], fun row => ?_⟩
    simp [regex_ignore_domains, h, List.mem_filter]

/-- Witness for C7: the invalid pattern `"("` leaves a one-row record set
unchanged under the concrete sample engine. -/
theorem c7_regex_exclusion_witness :
    sampleEngine.compile "(" = none ∧
    regex_ignore_domains sampleEngine [sampleRow 0 2 "c" "ads.example.com"]
      "(" = [sampleRow 0 2 "c" "ads.example.com"] :=
  ⟨by decide, (c7_regex_exclusion sampleEngine _ "(").1 (by decide)⟩

/-- C8 counterexample: the claim says every loader returns an *empty* mapping
on any query error.  For `load_client_mac_mapping`, when the first query
succeeds and the second fails, the `except` block does not reset the
IP→MAC dict, so a non-empty mapping is returned. -/
theorem c8_mac_loader_counterexample :
    (load_client_mac_mapping (Except.ok [("10.0.0.1", "AA:BB:CC:DD:EE:FF")])
      (Except.error "query failed")).1 ≠ [] := by decide

/-- C8 amended: on a query error every loader still closes its connection and
returns without raising; the hostname and forwarder loaders return the empty
mapping, while the MAC loader returns the mappings accumulated before the
failing query (its IP→MAC dict equals the one a run with no name rows
builds) with an empty MAC→name mapping. -/
theorem c8_loader_error_policy :
    (∀ e, load_hostname_mapping (Except.error e) = ([], true)) ∧
    (∀ e, load_forwarder_mapping (Except.error e) = ([], true)) ∧
    (∀ q, (load_hostname_mapping q).2 = true) ∧
    (∀ q, (load_forwarder_mapping q).2 = true) ∧
    (∀ e qNames, load_client_mac_mapping (Except.error e) qNames =
      ([], [], true)) ∧
    (∀ ipRows e,
      (load_client_mac_mapping (Except.ok ipRows) (Except.error e)).1 =
        (load_client_mac_mapping (Except.ok ipRows) (Except.ok [])).1 ∧
      (load_client_mac_mapping (Except.ok ipRows) (Except.error e)).2.1 = [] ∧
      (load_client_mac_mapping (Except.ok ipRows) (Except.error e)).2.2 =
        true) ∧
    (∀ qIps qNames, (load_client_mac_mapping qIps qNames).2.2 = true) := by
  refine ⟨fun e => rfl, fun e => rfl, ?_, ?_, fun e qNames => rfl,
    fun ipRows e => ⟨rfl, rfl, rfl⟩, ?_⟩
  · intro q; cases q <;> rfl
  · intro q; cases q <;> rfl
  · intro qIps qNames; cases qIps <;> cases qNames <;> rfl

/-- C10: when the database path does not name an existing file, each mapping
loader propagates `FileNotFoundError` from `connect_to_sql` (which runs
before the error-catching block) instead of returning an empty mapping; with
an existing file the loader body runs and query errors are absorbed. -/
theorem c10_missing_file_raises :
    (∀ q, load_hostname_mapping_full false q =
      Except.error "FileNotFoundError") ∧
    (∀ qIps qNames, load_client_mac_mapping_full false qIps qNames =
      Except.error "FileNotFoundError") ∧
    (∀ q, load_forwarder_mapping_full false q =
      Except.error "FileNotFoundError") ∧
    (∀ e, load_hostname_mapping_full true (Except.error e) =
      Except.ok ([], true)) ∧
    (∀ e, load_forwarder_mapping_full true (Except.error e) =
      Except.ok ([], true)) :=
  ⟨fun _ => rfl, fun _ _ => rfl, fun _ => rfl, fun _ => rfl, fun _ => rfl⟩

/-! ### Calendar lemmas for the window resolver -/

theorem isLeapYear_eq_true_iff (y : ℕ) :
    isLeapYear y = true ↔ (y % 4 = 0 ∧ (y % 100 ≠ 0 ∨ y % 400 = 0)) := by
  simp [isLeapYear]

theorem daysBeforeMonth_succ (y m : ℕ) (h1 : 1 ≤ m) (h2 : m ≤ 11) :
    daysBeforeMonth y (m + 1) = daysBeforeMonth y m + daysInMonth y m := by
  interval_cases m <;> cases h : isLeapYear y <;>
    simp [daysBeforeMonth, cumDaysBeforeMonth, daysInMonth, h]

theorem daysBeforeYear_succ (y : ℕ) (hy : 1 ≤ y) :
    daysBeforeYear (y + 1) =
      daysBeforeYear y + 365 + (if isLeapYear y then 1 else 0) := by
  by_cases h : (y % 4 = 0 ∧ (y % 100 ≠ 0 ∨ y % 400 = 0))
  · rw [if_pos ((isLeapYear_eq_true_iff y).mpr h)]
    simp only [daysBeforeYear, leapsBeforeYear]
    omega
  · rw [if_neg (fun hc => h ((isLeapYear_eq_true_iff y).mp hc))]
    simp only [daysBeforeYear, leapsBeforeYear]
    omega

theorem toOrdinal_addOneDay (dt : CalDate) (h : ValidDate dt) :
    toOrdinal (addOneDay dt) = toOrdinal dt + 1 := by
  obtain ⟨hy, hm1, hm2, hd1, hd2⟩ := h
  unfold addOneDay
  by_cases hlt : dt.d < daysInMonth dt.y dt.m
  · rw [if_pos hlt]
    simp only [toOrdinal]
    omega
  · rw [if_neg hlt]
    have hd : dt.d = daysInMonth dt.y dt.m := le_antisymm hd2 (not_lt.mp hlt)
    by_cases hm : dt.m < 12
    · rw [if_pos hm]
      have hs := daysBeforeMonth_succ dt.y dt.m hm1 (by omega)
      simp only [toOrdinal] at *
      omega
    · rw [if_neg hm]
      have hm12 : dt.m = 12 := by omega
      have hy' := daysBeforeYear_succ dt.y hy
      rw [hm12] at hd
      simp only [toOrdinal, daysBeforeMonth, cumDaysBeforeMonth, daysInMonth,
        hm12, hd] at *
      cases hL : isLeapYear dt.y <;> simp [hL] at hy' ⊢ <;> omega

/-- C4: with explicit equal start and end dates, the window resolver adds one
calendar day to the inclusive end date, so every valid date yields the
right-exclusive 24-hour UTC interval `[midnight, midnight + 86400)`; in
particular 2024-01-01 yields exactly
`[2024-01-01T00:00:00Z, 2024-01-02T00:00:00Z)`. -/
theorem c4_window_resolution :
    get_timestamp_range_explicit_utc ⟨2024, 1, 1⟩ ⟨2024, 1, 1⟩ =
      (1704067200, 1704153600) ∧
    (∀ dt : CalDate, ValidDate dt →
      get_timestamp_range_explicit_utc dt dt =
        (epochSecs dt, epochSecs dt + 86400)) := by
  constructor
  · decide
  · intro dt h
    unfold get_timestamp_range_explicit_utc
    rw [show epochSecs (addOneDay dt) = epochSecs dt + 86400 by
      simp only [epochSecs, toOrdinal_addOneDay dt h]
      push_cast
      ring]

/-- Witness for C4 at the valid leap-year date 2024-02-28. -/
theorem c4_window_resolution_witness :
    ValidDate ⟨2024, 2, 28⟩ ∧
    get_timestamp_range_explicit_utc ⟨2024, 2, 28⟩ ⟨2024, 2, 28⟩ =
      (epochSecs ⟨2024, 2, 28⟩, epochSecs ⟨2024, 2, 28⟩ + 86400) :=
  ⟨by decide, c4_window_resolution.2 ⟨2024, 2, 28⟩ (by decide)⟩

/-! ### Sorting and enrichment lemmas -/

theorem resolveRow_timestamp (hmap : String → Option String) (mode : String)
    (r : Row) : (resolveRow hmap mode r).timestamp = r.timestamp := by
  unfold resolveRow
  split_ifs <;> rfl

theorem insertTs_map (f : Row → Row)
    (hf : ∀ x, (f x).timestamp = x.timestamp) (r : Row) (l : List Row) :
    insertTs (f r) (l.map f) = (insertTs r l).map f := by
  induction l with
  | nil => rfl
  | cons x xs ih =>
    simp only [List.map_cons, insertTs, hf]
    split_ifs with h
    · simp
    · simp [ih]

theorem sortTs_map (f : Row → Row)
    (hf : ∀ x, (f x).timestamp = x.timestamp) (l : List Row) :
    sortTs (l.map f) = (sortTs l).map f := by
  induction l with
  | nil => rfl
  | cons x xs ih => simp only [List.map_cons, sortTs, ih, insertTs_map f hf]

theorem insertTs_head_cases (r : Row) (l : List Row) :
    (insertTs r l).head? = some r ∨ (insertTs r l).head? = l.head? := by
  cases l with
  | nil => left; rfl
  | cons x xs =>
    unfold insertTs
    split_ifs with h
    · left; rfl
    · right; rfl

theorem insertTs_chain (r : Row) (l : List Row)
    (h : l.Chain' (fun a b => a.timestamp ≤ b.timestamp)) :
    (insertTs r l).Chain' (fun a b => a.timestamp ≤ b.timestamp) := by
  induction l with
  | nil => simp [insertTs]
  | cons x xs ih =>
    unfold insertTs
    split_ifs with hle
    · exact List.Chain'.cons hle h
    · have hxs : xs.Chain' (fun a b : Row => a.timestamp ≤ b.timestamp) :=
        h.tail
      rw [List.chain'_cons']
      refine ⟨?_, ih hxs⟩
      intro y hy
      rcases insertTs_head_cases r xs with hc | hc
      · rw [hc] at hy
        simp only [Option.mem_def, Option.some_inj] at hy
        subst hy
        omega
      · rw [hc] at hy
        exact (List.chain'_cons'.mp h).1 y hy

theorem sortTs_chain (l : List Row) :
    (sortTs l).Chain' (fun a b => a.timestamp ≤ b.timestamp) := by
  induction l with
  | nil => simp [sortTs]
  | cons x xs ih => exact insertTs_chain x (sortTs xs) ih

theorem sortTs_eq_of_chain (l : List Row)
    (h : l.Chain' (fun a b => a.timestamp ≤ b.timestamp)) : sortTs l = l := by
  induction l with
  | nil => rfl
  | cons x xs ih =>
    simp only [sortTs, ih h.tail]
    cases xs with
    | nil => rfl
    | cons y ys =>
      have hxy : x.timestamp ≤ y.timestamp := (List.chain'_cons.mp h).1
      simp [insertTs, hxy]

theorem sortTs_idem (l : List Row) : sortTs (sortTs l) = sortTs l :=
  sortTs_eq_of_chain (sortTs l) (sortTs_chain l)

theorem enrichRow_ip_idem (hmap : String → Option String) (off : ℤ) (r : Row) :
    preprocessRow off (resolveRow hmap "ip"
      (preprocessRow off (resolveRow hmap "ip" r))) =
      preprocessRow off (resolveRow hmap "ip" r) := rfl

/-- C9 counterexample: with display mode `"hostname"` and a mapping that
resolves the row's client, applying enrichment twice differs from applying it
once — the second pass overwrites `client_ip` with the resolved hostname. -/
theorem c9_enrichment_not_idempotent :
    enrich sampleHostMap "hostname" 0
      (enrich sampleHostMap "hostname" 0 [sampleRow 0 2 "192.168.1.2" "d"]) ≠
    enrich sampleHostMap "hostname" 0 [sampleRow 0 2 "192.168.1.2" "d"] := by
  decide

/-- C9 amended: enrichment (hostname resolution followed by preprocessing)
is idempotent when the client display mode is `"ip"`; in the resolving modes
a second application overwrites `client_ip` with the display value, so
idempotence fails there (see the counterexample). -/
theorem c9_enrichment_idempotent_ip (hmap : String → Option String) (off : ℤ)
    (df : List Row) :
    enrich hmap "ip" off (enrich hmap "ip" off df) =
      enrich hmap "ip" off df := by
  have hres : ∀ x : Row, (resolveRow hmap "ip" x).timestamp = x.timestamp :=
    resolveRow_timestamp hmap "ip"
  have hkey : ∀ l : List Row,
      sortTs (l.map (resolveRow hmap "ip")) =
        (sortTs l).map (resolveRow hmap "ip") :=
    sortTs_map (resolveRow hmap "ip") hres
  unfold enrich preprocess_df resolve_hostnames
  rw [hkey df, List.map_map, List.map_map]
  rw [sortTs_map ((resolveRow hmap "ip" ∘ preprocessRow off) ∘
    resolveRow hmap "ip") (fun x => rfl)]
  rw [sortTs_idem, List.map_map]
  have hfun : preprocessRow off ∘ ((resolveRow hmap "ip" ∘ preprocessRow off) ∘
      resolveRow hmap "ip") = preprocessRow off ∘ resolveRow hmap "ip" :=
    funext (fun r => enrichRow_ip_idem hmap off r)
  rw [hfun, List.map_map]

/-! ### Aggregator lemmas -/

theorem mem_intRange {lo hi b : ℤ} : b ∈ intRange lo hi ↔ lo ≤ b ∧ b ≤ hi := by
  constructor
  · intro h
    obtain ⟨i, hi1, hi2⟩ := List.mem_map.mp h
    have hlt : i < (hi + 1 - lo).toNat := List.mem_range.mp hi1
    constructor <;> omega
  · rintro ⟨h1, h2⟩
    refine List.mem_map.mpr ⟨(b - lo).toNat, List.mem_range.mpr ?_, ?_⟩ <;>
      omega

theorem intRange_nodup (lo hi : ℤ) : (intRange lo hi).Nodup := by
  refine List.Nodup.map ?_ (List.nodup_range _)
  intro a b h
  have h' : lo + (a : ℤ) = lo + (b : ℤ) := h
  omega

theorem foldl_min_le_init (l : List Row) (a : ℤ) :
    l.foldl (fun acc r => min acc (hourBucket r)) a ≤ a := by
  induction l generalizing a with
  | nil => simp
  | cons x xs ih => exact le_trans (ih (min a (hourBucket x))) (min_le_left _ _)

theorem foldl_min_le_mem (l : List Row) (r : Row) (hr : r ∈ l) (a : ℤ) :
    l.foldl (fun acc r => min acc (hourBucket r)) a ≤ hourBucket r := by
  induction l generalizing a with
  | nil => cases hr
  | cons x xs ih =>
    rcases List.mem_cons.mp hr with h | h
    · subst h
      exact le_trans (foldl_min_le_init xs _) (min_le_right _ _)
    · exact ih h _

theorem le_foldl_max_init (l : List Row) (a : ℤ) :
    a ≤ l.foldl (fun acc r => max acc (hourBucket r)) a := by
  induction l generalizing a with
  | nil => simp
  | cons x xs ih => exact le_trans (le_max_left _ _) (ih (max a (hourBucket x)))

theorem le_foldl_max_mem (l : List Row) (r : Row) (hr : r ∈ l) (a : ℤ) :
    hourBucket r ≤ l.foldl (fun acc r => max acc (hourBucket r)) a := by
  induction l generalizing a with
  | nil => cases hr
  | cons x xs ih =>
    rcases List.mem_cons.mp hr with h | h
    · subst h
      exact le_trans (le_max_right _ _) (le_foldl_max_init xs _)
    · exact ih h _

theorem bucketMin_le {r0 : Row} {rest : List Row} {r : Row}
    (hr : r ∈ r0 :: rest) : bucketMin r0 rest ≤ hourBucket r := by
  unfold bucketMin
  rcases List.mem_cons.mp hr with h | h
  · subst h
    exact foldl_min_le_init rest _
  · exact foldl_min_le_mem rest r h _

theorem le_bucketMax {r0 : Row} {rest : List Row} {r : Row}
    (hr : r ∈ r0 :: rest) : hourBucket r ≤ bucketMax r0 rest := by
  unfold bucketMax
  rcases List.mem_cons.mp hr with h | h
  · subst h
    exact le_foldl_max_init rest _
  · exact le_foldl_max_mem rest r h _

theorem sum_map_add_nat {β : Type} (ks : List β) (f g : β → ℕ) :
    (ks.map (fun k => f k + g k)).sum = (ks.map f).sum + (ks.map g).sum := by
  induction ks with
  | nil => rfl
  | cons k t ih =>
    simp only [List.map_cons, List.sum_cons, ih]
    omega

theorem sum_map_indicator_zero {β : Type} [DecidableEq β] (a : β)
    (ks : List β) (h : a ∉ ks) :
    (ks.map (fun k => if a = k then 1 else 0)).sum = 0 := by
  induction ks with
  | nil => rfl
  | cons k t ih =>
    have hk : a ≠ k := fun e => h (by simp [e])
    have ht : a ∉ t := fun e => h (by simp [e])
    simp [hk, ih ht]

theorem sum_map_indicator_one {β : Type} [DecidableEq β] (a : β) (ks : List β)
    (hnd : ks.Nodup) (ha : a ∈ ks) :
    (ks.map (fun k => if a = k then 1 else 0)).sum = 1 := by
  induction ks with
  | nil => cases ha
  | cons k t ih =>
    rcases List.mem_cons.mp ha with h | h
    · subst h
      have hnt : a ∉ t := (List.nodup_cons.mp hnd).1
      simp [sum_map_indicator_zero a t hnt]
    · have hk : a ≠ k := by
        intro e
        subst e
        exact (List.nodup_cons.mp hnd).1 h
      simp [hk, ih (List.nodup_cons.mp hnd).2 h]

theorem length_filter_partition {α β : Type} [DecidableEq β] (key : α → β)
    (l : List α) (ks : List β) (hnd : ks.Nodup)
    (hcov : ∀ x ∈ l, key x ∈ ks) :
    (ks.map (fun k => (l.filter (fun x => decide (key x = k))).length)).sum =
      l.length := by
  induction l with
  | nil => simp
  | cons x t ih =>
    have hx : key x ∈ ks := hcov x (List.mem_cons_self x t)
    have ht : ∀ y ∈ t, key y ∈ ks :=
      fun y hy => hcov y (List.mem_cons_of_mem x hy)
    have hstep : ∀ k : β,
        ((x :: t).filter (fun y => decide (key y = k))).length =
          (if key x = k then 1 else 0) +
            (t.filter (fun y => decide (key y = k))).length := by
      intro k
      by_cases h : key x = k
      · simp only [List.filter_cons, h]
        simp
        omega
      · simp [List.filter_cons, h]
    simp only [hstep]
    rw [sum_map_add_nat ks (fun k => if key x = k then 1 else 0)
      (fun k => (t.filter (fun y => decide (key y = k))).length),
      sum_map_indicator_one (key x) ks hnd hx, ih ht]
    simp only [List.length_cons]
    omega

theorem sum_flatMap_nat {α : Type} (l : List α) (g : α → List ℕ) :
    (l.flatMap g).sum = (l.map (fun a => (g a).sum)).sum := by
  induction l with
  | nil => rfl
  | cons x t ih => simp [List.flatMap_cons, ih]

theorem filter_flatMap_blocks (bs : List ℤ) (hnd : bs.Nodup)
    (B : ℤ → List (ℤ × String × String × ℕ))
    (hB : ∀ b' row, row ∈ B b' → row.1 = b') (b : ℤ) :
    (bs.flatMap B).filter (fun row => decide (row.1 = b)) =
      if b ∈ bs then B b else [] := by
  induction bs with
  | nil => simp
  | cons b0 t ih =>
    have hnd' : t.Nodup := (List.nodup_cons.mp hnd).2
    rw [List.flatMap_cons, List.filter_append, ih hnd']
    by_cases hb : b0 = b
    · subst hb
      have hnot : b0 ∉ t := (List.nodup_cons.mp hnd).1
      rw [if_neg hnot, if_pos (List.mem_cons_self b0 t)]
      rw [List.filter_eq_self.mpr (fun row hrow => by simp [hB b0 row hrow])]
      simp
    · have h0 : (B b0).filter (fun row => decide (row.1 = b)) = [] :=
        List.filter_eq_nil_iff.mpr
          (fun row hrow => by simp [hB b0 row hrow, hb])
      rw [h0, List.nil_append]
      by_cases hm : b ∈ t
      · rw [if_pos hm, if_pos (List.mem_cons_of_mem b0 hm)]
      · rw [if_neg hm, if_neg (fun hmem => by
          rcases List.mem_cons.mp hmem with e | hm2
          · exact hb e.symm
          · exact hm hm2)]

theorem aggBlock_row_bucket (f : Row → String) (df : List Row) (b' : ℤ)
    (row : ℤ × String × String × ℕ) (h : row ∈ aggBlock f df b') :
    row.1 = b' := by
  unfold aggBlock at h
  simp only [List.mem_flatMap, List.mem_map] at h
  obtain ⟨v, hv, c, hc, rfl⟩ := h
  rfl

theorem aggBy_mem_cell (f : Row → String) (r0 : Row) (rest : List Row)
    (b : ℤ) (v c : String) (h1 : bucketMin r0 rest ≤ b)
    (h2 : b ≤ bucketMax r0 rest) (hv : v ∈ (r0 :: rest).map f)
    (hc : c ∈ (r0 :: rest).map Row.client) :
    (b, v, c, aggCell f (r0 :: rest) b v c) ∈ aggBy f (r0 :: rest) := by
  have hrfl : aggBy f (r0 :: rest) =
      (intRange (bucketMin r0 rest) (bucketMax r0 rest)).flatMap
        (aggBlock f (r0 :: rest)) := rfl
  rw [hrfl]
  simp only [List.mem_flatMap]
  refine ⟨b, mem_intRange.mpr ⟨h1, h2⟩, ?_⟩
  unfold aggBlock
  simp only [List.mem_flatMap, List.mem_map]
  exact ⟨v, List.mem_dedup.mpr hv, c, List.mem_dedup.mpr hc, rfl⟩

theorem aggCell_zero (f : Row → String) (df : List Row) (b : ℤ) (v c : String)
    (hempty : ∀ r ∈ df, hourBucket r ≠ b) : aggCell f df b v c = 0 := by
  unfold aggCell
  rw [List.length_eq_zero]
  exact List.filter_eq_nil_iff.mpr (fun r hr => by simp [hempty r hr])

theorem aggCell_eq_nested (f : Row → String) (df : List Row) (b : ℤ)
    (v c : String) :
    aggCell f df b v c =
      (((df.filter (fun r => decide (hourBucket r = b))).filter
        (fun r => decide (f r = v))).filter
        (fun r => decide (r.client = c))).length := by
  unfold aggCell
  congr 1
  rw [List.filter_filter, List.filter_filter]
  apply List.filter_congr
  intro x _
  by_cases h1 : hourBucket x = b <;> by_cases h2 : f x = v <;>
    by_cases h3 : x.client = c <;> simp [h1, h2, h3]

theorem sum_map_snd3 (cl : List String) (b : ℤ) (v : String)
    (n : String → ℕ) :
    ((cl.map (fun c => (b, v, c, n c))).map
      (fun row : ℤ × String × String × ℕ => row.2.2.2)).sum =
      (cl.map n).sum := by
  induction cl with
  | nil => rfl
  | cons x t ih =>
    simp only [List.map_cons, List.sum_cons, ih]

/-- C5: for every enriched record set and every hour bucket, the counts in
the (bucket × status_type × client) aggregate that carry that bucket sum to
the number of records whose timestamp falls in that bucket. -/
theorem c5_bucket_sum_invariant (df : List Row) (b : ℤ) :
    (((hourly_agg df).filter (fun row => decide (row.1 = b))).map
      (fun row => row.2.2.2)).sum =
      (df.filter (fun r => decide (hourBucket r = b))).length := by
  cases df with
  | nil => rfl
  | cons r0 rest =>
    have hagg : hourly_agg (r0 :: rest) =
        (intRange (bucketMin r0 rest) (bucketMax r0 rest)).flatMap
          (aggBlock Row.status_type (r0 :: rest)) := rfl
    rw [hagg, filter_flatMap_blocks _ (intRange_nodup _ _) _
      (fun b' row h =>
        aggBlock_row_bucket Row.status_type (r0 :: rest) b' row h) b]
    by_cases hmem : b ∈ intRange (bucketMin r0 rest) (bucketMax r0 rest)
    · rw [if_pos hmem]
      unfold aggBlock
      rw [List.map_flatMap, sum_flatMap_nat]
      simp only [aggCell_eq_nested]
      rw [List.map_congr_left (fun v _ => sum_map_snd3
        (((r0 :: rest).map Row.client).dedup) b v _)]
      have hinner : ∀ v : String,
          ((((r0 :: rest).map Row.client).dedup).map (fun c =>
            ((((r0 :: rest).filter (fun r => decide (hourBucket r = b))).filter
              (fun r => decide (Row.status_type r = v))).filter
              (fun r => decide (r.client = c))).length)).sum =
          (((r0 :: rest).filter (fun r => decide (hourBucket r = b))).filter
            (fun r => decide (Row.status_type r = v))).length := by
        intro v
        apply length_filter_partition Row.client _ _ (List.nodup_dedup _)
        intro x hx
        exact List.mem_dedup.mpr (List.mem_map_of_mem Row.client
          (List.mem_of_mem_filter (List.mem_of_mem_filter hx)))
      rw [List.map_congr_left (fun v _ => hinner v)]
      apply length_filter_partition Row.status_type _ _ (List.nodup_dedup _)
      intro x hx
      exact List.mem_dedup.mpr (List.mem_map_of_mem Row.status_type
        (List.mem_of_mem_filter hx))
    · rw [if_neg hmem]
      have hnone : (r0 :: rest).filter
          (fun r => decide (hourBucket r = b)) = [] := by
        apply List.filter_eq_nil_iff.mpr
        intro r hr
        simp only [decide_eq_true_eq]
        intro hfb
        have h1 := bucketMin_le hr
        have h2 := le_bucketMax hr
        exact hmem (mem_intRange.mpr ⟨by omega, by omega⟩)
      rw [hnone]
      rfl

/-- C1: when the records of a non-empty set leave an hour bucket `b` strictly
between the minimum and maximum observed bucket empty, each of the three
aggregate tables still materializes a zero-count entry `(b, v, c, 0)` for
every categorical value `v` and every client `c` present in the input. -/
theorem c1_gap_filling (r0 : Row) (rest : List Row) (b : ℤ) (v c : String)
    (hlo : bucketMin r0 rest < b) (hhi : b < bucketMax r0 rest)
    (hempty : ∀ r ∈ r0 :: rest, hourBucket r ≠ b) :
    (v ∈ (r0 :: rest).map Row.status_type →
      c ∈ (r0 :: rest).map Row.client →
      (b, v, c, 0) ∈ hourly_agg (r0 :: rest)) ∧
    (v ∈ (r0 :: rest).map Row.dns_category →
      c ∈ (r0 :: rest).map Row.client →
      (b, v, c, 0) ∈ unbound_trend_agg (r0 :: rest)) ∧
    (v ∈ (r0 :: rest).map Row.query_type →
      c ∈ (r0 :: rest).map Row.client →
      (b, v, c, 0) ∈ query_type_trend_agg (r0 :: rest)) := by
  refine ⟨fun hv hc => ?_, fun hv hc => ?_, fun hv hc => ?_⟩
  · have hm := aggBy_mem_cell Row.status_type r0 rest b v c
      (le_of_lt hlo) (le_of_lt hhi) hv hc
    rw [aggCell_zero Row.status_type (r0 :: rest) b v c hempty] at hm
    exact hm
  · have hm := aggBy_mem_cell Row.dns_category r0 rest b v c
      (le_of_lt hlo) (le_of_lt hhi) hv hc
    rw [aggCell_zero Row.dns_category (r0 :: rest) b v c hempty] at hm
    exact hm
  · have hm := aggBy_mem_cell Row.query_type r0 rest b v c
      (le_of_lt hlo) (le_of_lt hhi) hv hc
    rw [aggCell_zero Row.query_type (r0 :: rest) b v c hempty] at hm
    exact hm

/-- Witness for C1: records at hour buckets 0 and 3 only; the empty bucket 1
still gets a zero-count status row for the present value `"Allowed"`. -/
theorem c1_gap_filling_witness :
    ((1 : ℤ), "Allowed", "c1", (0 : ℕ)) ∈
      hourly_agg [sampleRow 0 2 "c1" "d", sampleRow 10800 1 "c1" "d"] :=
  (c1_gap_filling (sampleRow 0 2 "c1" "d") [sampleRow 10800 1 "c1" "d"] 1
    "Allowed" "c1" (by decide) (by decide) (by decide)).1
    (by decide) (by decide)
